import Mathlib

/-!
Verification development for the zkTLS price-oracle repository.

The development shallowly embeds the reproducible core of the repository:

* `src/src/lib/encoding.ts` — attestation encoding and signature checking;
* `src/src/parse-attestation.ts` — circuit input packing helpers;
* `src/lib/price.ts` (an unnamed source part) — price parsing and the
  8-byte big-endian conversions;
* `contracts/ZkTLSPriceOracle.sol` — the on-chain public-input unpacker
  with its replay, staleness, and attestor bookkeeping.

Byte strings are `List Nat` with every element below 256.  The Keccak-256
hash used by ethers is an external primitive and is modelled as an
explicit function parameter `H : List Nat → List Nat`; every theorem
quantifies over it.  ECDSA address recovery is likewise passed in as a
parameter.  JavaScript doubles are modelled exactly as sign, significand
and binary exponent, with correct rounding implemented in integer
arithmetic.
-/

/-- UTF-8 encoding of one character (code point to one..four bytes). -/
def utf8Char (c : Char) : List Nat :=
  let n := c.toNat
  if n < 0x80 then [n]
  else if n < 0x800 then [0xC0 + n / 64, 0x80 + n % 64]
  else if n < 0x10000 then
    [0xE0 + n / 4096, 0x80 + n / 64 % 64, 0x80 + n % 64]
  else
    [0xF0 + n / 262144, 0x80 + n / 4096 % 64, 0x80 + n / 64 % 64, 0x80 + n % 64]

/-- UTF-8 bytes of a string, the encoding ethers applies to `string` values. -/
def utf8 (s : String) : List Nat :=
  s.data.foldr (fun c acc => utf8Char c ++ acc) []

/-- Big-endian fixed-width byte expansion: `w` bytes of `n`, most significant
first (the low `8*w` bits of `n`). -/
def beBytes (w n : Nat) : List Nat :=
  (List.range w).map (fun i => n / 256 ^ (w - 1 - i) % 256)

/-- Big-endian value of a byte list: folds most-significant-first digits in
base 256. -/
def beFold (bs : List Nat) : Nat :=
  bs.foldl (fun a b => a * 256 + b) 0

/-- A value as passed to `ethers.utils.solidityPack`, restricted to the type
tags the repository uses: `string`, `bytes`, `address`, `bytes32`, `uint64`. -/
inductive SolidityValue where
  | str (s : String)
  | bytes (b : List Nat)
  | address (a : Nat)
  | bytes32 (b : List Nat)
  | uint64 (n : Nat)
deriving DecidableEq

/-- Packed bytes of a single value: strings become raw UTF-8 with no length
tag, `bytes`/`bytes32` pass through, `address` is 20 big-endian bytes and
`uint64` is 8 big-endian bytes. -/
def packValue : SolidityValue → List Nat
  | .str s => utf8 s
  | .bytes b => b
  | .address a => beBytes 20 a
  | .bytes32 b => b
  | .uint64 n => beBytes 8 n

/-- `ethers.utils.solidityPack`: concatenation of the packed values with no
padding between fields. -/
def solidityPack (vs : List SolidityValue) : List Nat :=
  vs.foldr (fun v acc => packValue v ++ acc) []

/-- `AttestationRequest` from `src/src/lib/encoding.ts`. -/
structure AttestationRequest where
  url : String
  header : String
  method : String
  body : String
deriving DecidableEq

/-- `ResponseResolve` from `src/src/lib/encoding.ts`. -/
structure ResponseResolve where
  keyName : String
  parseType : String
  parsePath : String
deriving DecidableEq

/-- One entry of the `attestors` array (`attestorAddr` plus a URL). -/
structure AttestorEntry where
  attestorAddr : String
  url : String
deriving DecidableEq

/-- `Attestation` from `src/src/lib/encoding.ts`.  The recipient is the
20-byte address value; signatures stay abstract (hex strings). -/
structure Attestation where
  recipient : Nat
  request : AttestationRequest
  reponseResolve : List ResponseResolve
  data : String
  attConditions : String
  timestamp : Nat
  additionParams : String
  attestors : List AttestorEntry
  signatures : List String
deriving DecidableEq

/-- `encodeRequest` (encoding.ts lines 31-37): Keccak-256, modelled by the
parameter `H`, of `solidityPack(["string","string","string","string"],
[url, header, method, body])`. -/
def encodeRequest (H : List Nat → List Nat) (r : AttestationRequest) : List Nat :=
  H (solidityPack [.str r.url, .str r.header, .str r.method, .str r.body])

/-- The byte string folded by `encodeResponse` (encoding.ts lines 39-48)
before the final hash: starts from the empty `"0x"` byte string and packs
`(previous, keyName, parseType, parsePath)` for each entry in order. -/
def responsePackBytes (rs : List ResponseResolve) : List Nat :=
  rs.foldl
    (fun data r =>
      solidityPack [.bytes data, .str r.keyName, .str r.parseType, .str r.parsePath])
    []

/-- `encodeResponse`: hash of the folded byte string. -/
def encodeResponse (H : List Nat → List Nat) (rs : List ResponseResolve) : List Nat :=
  H (responsePackBytes rs)

/-- Packed bytes of one resolve entry as it enters the fold. -/
def resolveBytes (r : ResponseResolve) : List Nat :=
  solidityPack [.str r.keyName, .str r.parseType, .str r.parsePath]

/-- `encodeAttestation` (encoding.ts lines 50-64). -/
def encodeAttestation (H : List Nat → List Nat) (att : Attestation) : List Nat :=
  H (solidityPack
    [.address att.recipient,
     .bytes32 (encodeRequest H att.request),
     .bytes32 (encodeResponse H att.reponseResolve),
     .str att.data,
     .str att.attConditions,
     .uint64 att.timestamp,
     .str att.additionParams])

/-- Result record of `verifyAttestationSignature`. -/
structure VerifyResult where
  valid : Bool
  recoveredAddress : String
  expectedAddress : String
deriving DecidableEq

/-- JavaScript `toLowerCase` as used on the hex address strings: simple
per-character lowercasing (identical to the runtime behaviour on the
ASCII strings compared here, and structurally reducible). -/
def lowerAscii (s : String) : String :=
  String.mk (s.data.map Char.toLower)

/-- Runtime exceptions the TypeScript function can raise: `etherError` when
`ethers.utils.recoverAddress` throws (missing or malformed signature),
`typeError` for a property access on `undefined` (empty attestors array). -/
inductive JsError where
  | etherError
  | typeError
deriving DecidableEq

/-- `verifyAttestationSignature` (encoding.ts lines 66-80).  `recover`
models `ethers.utils.recoverAddress`, returning `none` exactly when ethers
throws (malformed signature bytes); `att.signatures[0]` on an empty array
is `undefined`, on which ethers also throws, and
`att.attestors[0].attestorAddr` on an empty array raises a TypeError.  The
source evaluates the recovery (line 72) before the attestor access
(line 73), so the recovery error wins when both lists are empty. -/
def verifyAttestationSignature (H : List Nat → List Nat)
    (recover : List Nat → String → Option String) (att : Attestation) :
    Except JsError VerifyResult :=
  let msgHash := encodeAttestation H att
  match att.signatures.head? with
  | none => .error .etherError
  | some sig =>
    match recover msgHash sig with
    | none => .error .etherError
    | some recovered =>
      match att.attestors.head? with
      | none => .error .typeError
      | some a0 =>
        .ok { valid := lowerAscii recovered == lowerAscii a0.attestorAddr
              recoveredAddress := recovered
              expectedAddress := a0.attestorAddr }

/-- Modelled from the spec, for comparison with the source packing: the
encoding the specification describes for `encodeRequest`, in which each
field is a length-tagged UTF-8 byte string (a 4-byte big-endian length
followed by the bytes), concatenated in declaration order. -/
def specLenTaggedRequestPack (r : AttestationRequest) : List Nat :=
  let tag := fun (bs : List Nat) => beBytes 4 bs.length ++ bs
  tag (utf8 r.url) ++ tag (utf8 r.header) ++ tag (utf8 r.method) ++ tag (utf8 r.body)

/-- Floor of the base-two logarithm, structurally recursive on a fuel
argument so that it reduces inside the kernel.  `log2Fuel f n` is exact
whenever `n < 2 ^ f`. -/
def log2Fuel : Nat → Nat → Nat
  | 0, _ => 0
  | fuel + 1, n => if n ≤ 1 then 0 else log2Fuel fuel (n / 2) + 1

/-- Correctly rounded conversion of the positive rational `p / q` to a
binary64 significand-exponent pair `(m, e)` with `2 ^ 52 ≤ m < 2 ^ 53`
and value `m * 2 ^ e`, rounding to nearest with ties to even.  Valid for
values in the normal range above `2 ^ (-1040)`, which covers every value
this development evaluates. -/
def nearestDouble (p q : Nat) : Nat × Int :=
  let a := p * 2 ^ 1100 / q
  let b := log2Fuel 4000 a
  let eInt : Int := (b : Int) - 1100 - 52
  let nd : Nat × Nat :=
    if 0 ≤ eInt then (p, q * 2 ^ eInt.toNat) else (p * 2 ^ (-eInt).toNat, q)
  let m0 := nd.1 / nd.2
  let r := nd.1 % nd.2
  let m :=
    if nd.2 < 2 * r then m0 + 1
    else if 2 * r < nd.2 then m0
    else if m0 % 2 = 0 then m0 else m0 + 1
  if m = 2 ^ 53 then (2 ^ 52, eInt + 1) else (m, eInt)

/-- A JavaScript number: NaN, or a sign with a significand-exponent pair.
Zero is `val neg 0 0`.  Infinities never arise in the evaluated range. -/
inductive JsFloat where
  | nan
  | val (neg : Bool) (m : Nat) (e : Int)
deriving DecidableEq

/-- Value of a run of decimal digit characters. -/
def digitsToNat (ds : List Char) : Nat :=
  ds.foldl (fun a c => a * 10 + (c.toNat - 48)) 0

/-- `parseFloat` on an already-split character list: longest valid decimal
literal at the front (optional sign, integer digits, optional fraction,
optional exponent), `nan` when no digit is consumed.  The numeric value
`n * 10 ^ exp / 10 ^ k` is rounded to the nearest binary64. -/
def jsParseFloatChars (cs0 : List Char) : JsFloat :=
  let cs1 := cs0.dropWhile Char.isWhitespace
  let sgn : Bool × List Char :=
    match cs1 with
    | '-' :: rest => (true, rest)
    | '+' :: rest => (false, rest)
    | _ => (false, cs1)
  let intDigits := sgn.2.takeWhile Char.isDigit
  let afterInt := sgn.2.dropWhile Char.isDigit
  let frac : List Char × List Char :=
    match afterInt with
    | '.' :: rest => (rest.takeWhile Char.isDigit, rest.dropWhile Char.isDigit)
    | _ => ([], afterInt)
  if intDigits.isEmpty ∧ frac.1.isEmpty then .nan
  else
    let n := digitsToNat (intDigits ++ frac.1)
    let k := frac.1.length
    let exp : Int :=
      match frac.2 with
      | 'e' :: rest | 'E' :: rest =>
        let esgn : Bool × List Char :=
          match rest with
          | '-' :: r2 => (true, r2)
          | '+' :: r2 => (false, r2)
          | _ => (false, rest)
        let eds := esgn.2.takeWhile Char.isDigit
        if eds.isEmpty then 0
        else if esgn.1 then -(digitsToNat eds : Int) else (digitsToNat eds : Int)
      | _ => 0
    if n = 0 then .val sgn.1 0 0
    else
      let e10 : Int := exp - (k : Int)
      let pq : Nat × Nat :=
        if 0 ≤ e10 then (n * 10 ^ e10.toNat, 1) else (n, 10 ^ (-e10).toNat)
      let me := nearestDouble pq.1 pq.2
      .val sgn.1 me.1 me.2

/-- `parseFloat` on a string. -/
def jsParseFloat (s : String) : JsFloat :=
  jsParseFloatChars s.data

/-- `DECIMALS` from the price library. -/
def DECIMALS : Nat := 6

/-- `MULTIPLIER = 10 ** DECIMALS`. -/
def MULTIPLIER : Nat := 10 ^ DECIMALS

/-- Double multiplication by the exactly representable constant
`MULTIPLIER = 1000000`: the exact product `m * 1000000 * 2 ^ e` rounded
back to 53 significand bits. -/
def jsMulMillion : JsFloat → JsFloat
  | .nan => .nan
  | .val neg m e =>
    if m = 0 then .val neg 0 0
    else
      let me := nearestDouble (m * MULTIPLIER) 1
      .val neg me.1 (e + me.2)

/-- `Math.round`: nearest integer, halves toward positive infinity.  NaN is
mapped to 0; the callers below only apply it after an `isNaN` guard. -/
def jsMathRound : JsFloat → Int
  | .nan => 0
  | .val neg m e =>
    if 0 ≤ e then
      let v : Int := (m * 2 ^ e.toNat : Nat)
      if neg then -v else v
    else
      let d := 2 ^ (-e).toNat
      let i := m / d
      let r := m % d
      if neg then -((i : Int) + (if d < 2 * r then 1 else 0))
      else (i : Int) + (if d ≤ 2 * r then 1 else 0)

/-- `Number.MAX_SAFE_INTEGER = 2 ^ 53 - 1`. -/
def MAX_SAFE_INTEGER : Nat := 2 ^ 53 - 1

/-- `u64ToBytes` (price library lines 48-62): throws unless
`0 ≤ value ≤ Number.MAX_SAFE_INTEGER`, then emits the low 64 bits as 8
big-endian bytes by repeatedly prepending `v & 0xFF` while shifting. -/
def u64ToBytes (value : Int) : Except String (List Nat) :=
  if value < 0 ∨ (MAX_SAFE_INTEGER : Int) < value then
    .error ("Value out of u64 range")
  else
    .ok ((List.range 8).foldl (fun bs i => (value.toNat / 256 ^ i % 256) :: bs) [])

/-- JavaScript `Number(bigint)` on a non-negative integer: exact below
`2 ^ 53`, otherwise the integer value of the nearest double. -/
def jsNumberOfNat (n : Nat) : Nat :=
  if n ≤ MAX_SAFE_INTEGER then n
  else
    let me := nearestDouble n 1
    me.1 * 2 ^ me.2.toNat

/-- `bytesToU64` (price library lines 67-78): requires exactly 8 bytes, then
folds `(value << 8) | byte` over them and converts the BigInt back with
`Number`. -/
def bytesToU64 (bytes : List Nat) : Except String Nat :=
  if bytes.length ≠ 8 then .error ("Expected 8 bytes")
  else .ok (jsNumberOfNat (bytes.foldl (fun v b => (v <<< 8) ||| b) 0))

/-- Result record of `parsePrice`. -/
structure ParsedPrice where
  raw : String
  float : JsFloat
  u64 : Int
  bytes : List Nat
deriving DecidableEq

/-- The quote-stripping step of `parsePrice`: remove one surrounding pair of
double-quote characters when the string both starts and ends with one
(JavaScript `slice(1, -1)`). -/
def stripQuotes (s : String) : String :=
  let cs := s.data
  if cs.head? = some ('"') ∧ cs.getLast? = some ('"') then
    String.mk ((cs.drop 1).dropLast)
  else s

/-- `parsePrice` (price library lines 19-43) on a string input: strip one
level of surrounding quotes, `parseFloat`, throw on NaN, multiply by
`MULTIPLIER` in double arithmetic, `Math.round`, and convert to 8
big-endian bytes (which can itself throw). -/
def parsePrice (value : String) : Except String ParsedPrice :=
  let raw := stripQuotes value
  match jsParseFloat raw with
  | .nan => .error ("Invalid price value: " ++ value)
  | .val neg m e =>
    let f : JsFloat := .val neg m e
    let u64 := jsMathRound (jsMulMillion f)
    match u64ToBytes u64 with
    | .error msg => .error msg
    | .ok bytes => .ok { raw := raw, float := f, u64 := u64, bytes := bytes }

/-- `stringToBytes` (src/src/parse-attestation.ts lines 32-39): a zero array
of `maxLen` slots with the first `min(bytes.length, maxLen)` slots
overwritten by the UTF-8 bytes of the string; longer strings lose their
tail. -/
def stringToBytes (str : String) (maxLen : Nat) : List Nat :=
  (List.range maxLen).map (fun i => (utf8 str).getD i 0)

/-- `EXPECTED_PUBLIC_INPUTS` (ZkTLSPriceOracle.sol line 41). -/
def EXPECTED_PUBLIC_INPUTS : Nat := 86

/-- `MAX_ATTESTATION_AGE = 5 minutes`, in seconds (line 37). -/
def MAX_ATTESTATION_AGE : Nat := 300

/-- `_extractAddress` (lines 176-184): 20 iterations of
`addr = (addr << 8) | uint160(uint8(slot))`, starting from `startIndex`.
The shift truncates at the `uint160` width and each slot contributes only
its low byte.  Inside `updatePrice` the loop runs after the length check,
so every access is in bounds; out-of-range reads are modelled as 0. -/
def extractAddress (publicInputs : List Nat) (startIndex : Nat) : Nat :=
  ((publicInputs.drop startIndex).take 20).foldl
    (fun addr b => addr * 256 % 2 ^ 160 + b % 256) 0

/-- `_extractBytes32` (lines 191-199): 32 iterations at `uint256` width. -/
def extractBytes32 (publicInputs : List Nat) (startIndex : Nat) : Nat :=
  ((publicInputs.drop startIndex).take 32).foldl
    (fun acc b => acc * 256 % 2 ^ 256 + b % 256) 0

/-- `PriceData` (lines 54-60); the two `bytes32` hashes are their numeric
values. -/
structure PriceData where
  price : Nat
  attestationTimestamp : Nat
  blockTimestamp : Nat
  responseDataHash : Nat
  packedHash : Nat
deriving DecidableEq

/-- The contract storage `updatePrice` touches: the trusted attestor,
the `usedProofHashes` mapping (the set of keys holding `true`) and
`latestPrice`. -/
structure OracleState where
  trustedAttestor : Nat
  usedProofHashes : List Nat
  latestPrice : PriceData
deriving DecidableEq

/-- The revert reasons `updatePrice` can raise: the five custom errors,
plus `OverflowPanic` for the Solidity 0.8 checked-arithmetic revert
(Panic 0x11) raised by the addition in the staleness check when
`attestationTimestamp + MAX_ATTESTATION_AGE` exceeds the uint256
range. -/
inductive OracleError where
  | InvalidProof
  | InvalidAttestor
  | InvalidPublicInputsLength
  | AttestationTooOld
  | ProofAlreadyUsed
  | OverflowPanic
deriving DecidableEq

/-- `updatePrice` (ZkTLSPriceOracle.sol lines 124-169).  The external
`HonkVerifier.verify` call is the parameter `verify`; `block.timestamp`
is the parameter `blockTimestamp`.  A revert is an `Except.error`, which
leaves the caller with the unchanged pre-state.  Slots are the numeric
values of the `bytes32` array entries (each below `2 ^ 256` in the
contract).  The checked addition in the staleness guard (line 145)
evaluates before the comparison and reverts with Panic 0x11 when the
sum leaves the uint256 range, which happens exactly when slot 21
decodes to at least `2 ^ 256 - MAX_ATTESTATION_AGE`. -/
def updatePrice (verify : List Nat → List Nat → Bool) (blockTimestamp : Nat)
    (s : OracleState) (proof : List Nat) (publicInputs : List Nat) :
    Except OracleError OracleState :=
  if publicInputs.length ≠ EXPECTED_PUBLIC_INPUTS then
    .error .InvalidPublicInputsLength
  else if ¬ verify proof publicInputs then .error .InvalidProof
  else if extractAddress publicInputs 0 ≠ s.trustedAttestor then
    .error .InvalidAttestor
  else
    let price := publicInputs.getD 20 0
    let attestationTimestamp := publicInputs.getD 21 0
    if 2 ^ 256 ≤ attestationTimestamp + MAX_ATTESTATION_AGE then
      .error .OverflowPanic
    else if attestationTimestamp + MAX_ATTESTATION_AGE < blockTimestamp then
      .error .AttestationTooOld
    else
      let responseDataHash := extractBytes32 publicInputs 22
      let packedHash := extractBytes32 publicInputs 54
      if packedHash ∈ s.usedProofHashes then .error .ProofAlreadyUsed
      else
        .ok { trustedAttestor := s.trustedAttestor
              usedProofHashes := packedHash :: s.usedProofHashes
              latestPrice :=
                { price := price
                  attestationTimestamp := attestationTimestamp
                  blockTimestamp := blockTimestamp
                  responseDataHash := responseDataHash
                  packedHash := packedHash } }

/-- Modelled from the spec, for comparison with `Math.round`: rounding to
the nearest integer with halves away from zero, the rule the
specification names for the price parser. -/
def specRoundHalfAwayFromZero : JsFloat → Int
  | .nan => 0
  | .val neg m e =>
    if 0 ≤ e then
      let v : Int := (m * 2 ^ e.toNat : Nat)
      if neg then -v else v
    else
      let d := 2 ^ (-e).toNat
      let i := m / d
      let r := m % d
      let mag : Int := (i : Int) + (if d ≤ 2 * r then 1 else 0)
      if neg then -mag else mag

/-- A fixture attestation whose `attestors` array is empty. -/
def attNoAttestors : Attestation :=
  { recipient := 0
    request := { url := "u", header := "", method := "GET", body := "" }
    reponseResolve := []
    data := "{}"
    attConditions := ""
    timestamp := 1
    additionParams := ""
    attestors := []
    signatures := ["0xsig"] }

/-- Bitwise or after an 8-bit shift is base-256 digit attachment. -/
theorem shiftLeft_or_byte (a b : Nat) (hb : b < 256) :
    (a <<< 8) ||| b = a * 256 + b := by
  rw [Nat.shiftLeft_eq, Nat.mul_comm a (2 ^ 8), ← Nat.mul_add_lt_is_or hb a]

/-- The 8-byte big-endian expansion loop of `u64ToBytes` followed by the
shift-or fold of `bytesToU64` is the identity below `2 ^ 64`. -/
theorem be8_fold_roundtrip (n : Nat) (h : n < 2 ^ 64) :
    ((List.range 8).foldl (fun bs i => (n / 256 ^ i % 256) :: bs) []).foldl
      (fun v b => (v <<< 8) ||| b) 0 = n := by
  have hb : ∀ k, n / 256 ^ k % 256 < 256 := fun k => Nat.mod_lt _ (by norm_num)
  simp only [show List.range 8 = [0, 1, 2, 3, 4, 5, 6, 7] from rfl,
    List.foldl_cons, List.foldl_nil]
  rw [shiftLeft_or_byte _ _ (hb 7), shiftLeft_or_byte _ _ (hb 6),
    shiftLeft_or_byte _ _ (hb 5), shiftLeft_or_byte _ _ (hb 4),
    shiftLeft_or_byte _ _ (hb 3), shiftLeft_or_byte _ _ (hb 2),
    shiftLeft_or_byte _ _ (hb 1), shiftLeft_or_byte _ _ (hb 0)]
  have h64 : n < 18446744073709551616 := by omega
  omega

/-- The zero-filled copy loop of `stringToBytes` is truncation plus
zero-padding. -/
theorem range_map_getD (l : List Nat) :
    ∀ n : Nat, (List.range n).map (fun i => l.getD i 0) =
      l.take n ++ List.replicate (n - l.length) 0 := by
  induction l with
  | nil =>
    intro n
    simp [List.map_const']
  | cons a t ih =>
    intro n
    cases n with
    | zero => simp
    | succ m =>
      rw [List.range_succ_eq_map]
      simp only [List.map_cons, List.map_map]
      have : (fun i => (a :: t).getD i 0) ∘ Nat.succ = fun i => t.getD i 0 := by
        funext i
        simp
      rw [this, ih m]
      simp [List.take_succ_cons, List.length_cons]


/-- C1, counterexample.  `encodeRequest` does not hash a length-tagged
encoding of the fields: the bytes it hashes ignore the field boundaries,
so the distinct requests `("ab","","","")` and `("a","b","","")` are
hashed from the very same byte string, while any length-tagged encoding
separates them; at the same input the hashed bytes also differ outright
from the length-tagged encoding. -/
theorem encodeRequest_not_length_tagged :
    encodeRequest id ⟨"ab", "", "", ""⟩ = encodeRequest id ⟨"a", "b", "", ""⟩
    ∧ (⟨"ab", "", "", ""⟩ : AttestationRequest) ≠ ⟨"a", "b", "", ""⟩
    ∧ specLenTaggedRequestPack ⟨"ab", "", "", ""⟩ ≠
        specLenTaggedRequestPack ⟨"a", "b", "", ""⟩
    ∧ encodeRequest id ⟨"ab", "", "", ""⟩ ≠
        id (specLenTaggedRequestPack ⟨"ab", "", "", ""⟩) := by
  refine ⟨rfl, by decide, by decide, by decide⟩

/-- C1, amended.  `encodeRequest` returns the hash of the url, header,
method and body fields each encoded as raw UTF-8 bytes with no length
tag, concatenated in declaration order with no padding between fields. -/
theorem encodeRequest_raw_concat (H : List Nat → List Nat) (r : AttestationRequest) :
    encodeRequest H r =
      H (utf8 r.url ++ utf8 r.header ++ utf8 r.method ++ utf8 r.body) := by
  simp [encodeRequest, solidityPack, packValue]

/-- C7, counterexample.  Two distinct resolve entries whose packed bytes
coincide: swapping them leaves the folded byte string, and hence the
digest under every hash, unchanged. -/
theorem encodeResponse_swap_collision :
    (⟨"x", "", ""⟩ : ResponseResolve) ≠ ⟨"", "x", ""⟩
    ∧ responsePackBytes [⟨"x", "", ""⟩, ⟨"", "x", ""⟩] =
        responsePackBytes [⟨"", "x", ""⟩, ⟨"x", "", ""⟩]
    ∧ encodeResponse id [⟨"x", "", ""⟩, ⟨"", "x", ""⟩] =
        encodeResponse id [⟨"", "x", ""⟩, ⟨"x", "", ""⟩] := by
  refine ⟨by decide, by decide, by decide⟩

/-- C7, amended.  Reordering a two-element resolve list changes the digest
exactly when the packed per-entry byte strings do not commute under
concatenation (record inequality alone does not suffice, since the
packing erases field boundaries); the hash must be injective for the
final digests to stay apart. -/
theorem encodeResponse_swap_ne (H : List Nat → List Nat)
    (hinj : Function.Injective H) (a b : ResponseResolve)
    (hne : resolveBytes a ++ resolveBytes b ≠ resolveBytes b ++ resolveBytes a) :
    encodeResponse H [a, b] ≠ encodeResponse H [b, a] := by
  have pair : ∀ x y : ResponseResolve,
      responsePackBytes [x, y] = resolveBytes x ++ resolveBytes y := by
    intro x y
    simp [responsePackBytes, resolveBytes, solidityPack, packValue, List.append_assoc]
  intro h
  exact hne (by rw [← pair, ← pair]; exact hinj h)

/-- C7, witness for the amended theorem. -/
theorem encodeResponse_swap_ne_witness :
    encodeResponse id [⟨"x", "", ""⟩, ⟨"y", "", ""⟩] ≠
      encodeResponse id [⟨"y", "", ""⟩, ⟨"x", "", ""⟩] :=
  encodeResponse_swap_ne id Function.injective_id _ _ (by decide)

/-- C8, counterexample.  `stringToBytes` silently truncates: a 3-byte
string squeezed into a 2-slot budget loses its tail and becomes
indistinguishable from the 2-byte string, with no error raised. -/
theorem stringToBytes_silent_truncation :
    stringToBytes ("abc") 2 = [97, 98]
    ∧ stringToBytes ("abc") 2 = stringToBytes ("ab") 2
    ∧ ("abc" : String) ≠ "ab" := by
  refine ⟨by decide, by decide, by decide⟩

/-- C8, amended.  `stringToBytes` never rejects a width mismatch: it always
returns exactly `maxLen` slots, zero-padding short strings and silently
cutting longer strings to their first `maxLen` UTF-8 bytes. -/
theorem stringToBytes_pads_and_truncates (s : String) (maxLen : Nat) :
    (stringToBytes s maxLen).length = maxLen
    ∧ stringToBytes s maxLen =
        (utf8 s).take maxLen ++ List.replicate (maxLen - (utf8 s).length) 0 := by
  constructor
  · simp [stringToBytes]
  · rw [stringToBytes, range_map_getD]

set_option maxRecDepth 40000 in
/-- C5, counterexample.  The parser rounds halves toward positive infinity
(JavaScript `Math.round`), not away from zero: the string
`"-0.0000005"` scales to exactly -0.5 and parses to 0, while rounding
half away from zero would give -1. -/
theorem parsePrice_half_toward_posinf :
    (parsePrice ("-0.0000005")).map ParsedPrice.u64 = .ok 0
    ∧ specRoundHalfAwayFromZero (jsMulMillion (jsParseFloat ("-0.0000005"))) = -1 := by
  refine ⟨rfl, rfl⟩

set_option maxRecDepth 40000 in
/-- C5, amended.  `parsePrice` scales the parsed decimal by 1,000,000 in
double arithmetic and rounds halves toward positive infinity, which
coincides with rounding away from zero on the non-negative examples:
`parse("2821.41")` and the double-quoted `parse("\"2821.41000\"")` both
yield 2821410000, `parse("0.0000005")` yields 1, `parse("0.0000004")`
yields 0; on the negative half `parse("-0.0000005")` yields 0, not -1. -/
theorem parsePrice_examples :
    (parsePrice ("2821.41")).map ParsedPrice.u64 = .ok 2821410000
    ∧ (parsePrice ("\"2821.41000\"")).map ParsedPrice.u64 = .ok 2821410000
    ∧ (parsePrice ("0.0000005")).map ParsedPrice.u64 = .ok 1
    ∧ (parsePrice ("0.0000004")).map ParsedPrice.u64 = .ok 0
    ∧ (parsePrice ("-0.0000005")).map ParsedPrice.u64 = .ok 0 := by
  refine ⟨rfl, rfl, rfl, rfl, rfl⟩

/-- C6, counterexample.  The round trip is not lossless over the full
64-bit range: `2 ^ 60` is representable as an unsigned 64-bit integer
(and exactly representable as a double), yet `u64ToBytes` rejects it
because it exceeds `Number.MAX_SAFE_INTEGER = 2 ^ 53 - 1`. -/
theorem u64ToBytes_rejects_above_2_53 :
    (0 : Int) ≤ 2 ^ 60 ∧ (2 ^ 60 : Int) < 2 ^ 64
    ∧ u64ToBytes (2 ^ 60) = .error ("Value out of u64 range") := by
  refine ⟨by norm_num, by norm_num, rfl⟩

/-- C6, amended.  Converting with `u64ToBytes` and back with `bytesToU64`
is lossless exactly on the safe-integer range: the round trip returns the
original value for every `0 ≤ v ≤ 2 ^ 53 - 1`, and `u64ToBytes` fails for
negative input (as it does above `2 ^ 53 - 1`). -/
theorem u64_roundtrip (v : Int) :
    (0 ≤ v → v ≤ ((MAX_SAFE_INTEGER : Nat) : Int) →
      (u64ToBytes v).bind bytesToU64 = .ok v.toNat)
    ∧ (v < 0 → u64ToBytes v = .error ("Value out of u64 range")) := by
  have hmax : ((MAX_SAFE_INTEGER : Nat) : Int) = 9007199254740991 := by
    norm_num [MAX_SAFE_INTEGER]
  constructor
  · intro h0 h1
    rw [hmax] at h1
    have hcond : ¬ (v < 0 ∨ ((MAX_SAFE_INTEGER : Nat) : Int) < v) := by
      rw [hmax]; omega
    rw [u64ToBytes, if_neg hcond]
    have hbind : ∀ l : List Nat, (Except.ok l).bind bytesToU64 = bytesToU64 l :=
      fun l => rfl
    rw [hbind]
    have hn : v.toNat < 2 ^ 64 := by omega
    have hlen :
        ¬ ((List.range 8).foldl (fun bs i => (v.toNat / 256 ^ i % 256) :: bs) []).length ≠ 8 := by
      simp [show List.range 8 = [0, 1, 2, 3, 4, 5, 6, 7] from rfl]
    rw [bytesToU64, if_neg hlen, be8_fold_roundtrip v.toNat hn, jsNumberOfNat,
      if_pos (by simp [MAX_SAFE_INTEGER]; omega)]

  · intro hneg
    rw [u64ToBytes, if_pos (Or.inl hneg)]

/-- C6, witness for the amended round trip at the documented price value
and for a negative input. -/
theorem u64_roundtrip_witness :
    (u64ToBytes 2821410000).bind bytesToU64 = .ok ((2821410000 : Int).toNat)
    ∧ u64ToBytes (-1) = .error ("Value out of u64 range") :=
  ⟨(u64_roundtrip 2821410000).1 (by norm_num) (by norm_num [MAX_SAFE_INTEGER]),
   (u64_roundtrip (-1)).2 (by norm_num)⟩

/-- The width-truncating extraction fold never actually truncates while the
accumulator stays below its headroom: on byte-valued input it agrees with
the plain big-endian fold. -/
theorem foldl_extract_eq (w : Nat) :
    ∀ (bs : List Nat) (acc : Nat), (∀ b ∈ bs, b < 256) → bs.length ≤ w →
      acc < 256 ^ (w - bs.length) →
      bs.foldl (fun a b => a * 256 % 256 ^ w + b % 256) acc =
        bs.foldl (fun a b => a * 256 + b) acc
  | [], _, _, _, _ => rfl
  | b :: t, acc, hb, hlen, hacc => by
    simp only [List.foldl_cons]
    have hb0 : b < 256 := hb b (List.mem_cons_self b t)
    have hlen' : t.length + 1 ≤ w := by simpa using hlen
    have hsplit : w - t.length = (w - (t.length + 1)) + 1 := by omega
    have hacc' : acc * 256 + b < 256 ^ (w - t.length) := by
      rw [hsplit, pow_succ]
      have h1 : acc + 1 ≤ 256 ^ (w - (t.length + 1)) := hacc
      calc acc * 256 + b < (acc + 1) * 256 := by omega
        _ ≤ 256 ^ (w - (t.length + 1)) * 256 := Nat.mul_le_mul_right 256 h1
    have hmod : acc * 256 % 256 ^ w = acc * 256 := by
      apply Nat.mod_eq_of_lt
      have hle : 256 ^ (w - t.length) ≤ 256 ^ w :=
        Nat.pow_le_pow_right (by norm_num) (by omega)
      omega
    rw [hmod, Nat.mod_eq_of_lt hb0]
    exact foldl_extract_eq w t (acc * 256 + b)
      (fun x hx => hb x (List.mem_cons_of_mem b hx)) (by omega) hacc'

/-- On byte-valued slots, `_extractAddress` is the big-endian value of the
20 slots it reads. -/
theorem extractAddress_eq_beFold (ps : List Nat) (start : Nat)
    (h : ∀ b ∈ ps, b < 256) :
    extractAddress ps start = beFold ((ps.drop start).take 20) := by
  rw [extractAddress, beFold, show (2 : Nat) ^ 160 = 256 ^ 20 by norm_num]
  apply foldl_extract_eq
  · intro b hb
    exact h b (List.mem_of_mem_drop (List.mem_of_mem_take hb))
  · exact List.length_take_le 20 _
  · exact pow_pos (by norm_num) _

/-- On byte-valued slots, `_extractBytes32` is the big-endian value of the
32 slots it reads. -/
theorem extractBytes32_eq_beFold (ps : List Nat) (start : Nat)
    (h : ∀ b ∈ ps, b < 256) :
    extractBytes32 ps start = beFold ((ps.drop start).take 32) := by
  rw [extractBytes32, beFold, show (2 : Nat) ^ 256 = 256 ^ 32 by norm_num]
  apply foldl_extract_eq
  · intro b hb
    exact h b (List.mem_of_mem_drop (List.mem_of_mem_take hb))
  · exact List.length_take_le 32 _
  · exact pow_pos (by norm_num) _

/-- A successful `updatePrice` call implies every guard passed, and the
new state records the decoded fields and marks the packed hash used. -/
theorem updatePrice_ok_fields (verify : List Nat → List Nat → Bool)
    (bt : Nat) (s : OracleState) (proof ps : List Nat) (s' : OracleState)
    (h : updatePrice verify bt s proof ps = .ok s') :
    ps.length = 86
    ∧ verify proof ps = true
    ∧ extractAddress ps 0 = s.trustedAttestor
    ∧ bt ≤ ps.getD 21 0 + 300
    ∧ extractBytes32 ps 54 ∉ s.usedProofHashes
    ∧ s' = { trustedAttestor := s.trustedAttestor
             usedProofHashes := extractBytes32 ps 54 :: s.usedProofHashes
             latestPrice :=
               { price := ps.getD 20 0
                 attestationTimestamp := ps.getD 21 0
                 blockTimestamp := bt
                 responseDataHash := extractBytes32 ps 22
                 packedHash := extractBytes32 ps 54 } } := by
  rw [updatePrice] at h
  simp only [EXPECTED_PUBLIC_INPUTS, MAX_ATTESTATION_AGE] at h
  split_ifs at h with h1 h2 h3 h4 h5 h6
  injection h with h'
  exact ⟨by omega, by simpa using h2, by simpa using h3, by omega, h6, h'.symm⟩

/-- A call whose packed hash is already recorded, whose other guards pass
and whose staleness addition stays inside the uint256 range reverts with
`ProofAlreadyUsed`. -/
theorem updatePrice_replay_error (verify : List Nat → List Nat → Bool)
    (bt : Nat) (s : OracleState) (proof ps : List Nat)
    (hlen : ps.length = 86) (hv : verify proof ps = true)
    (ha : extractAddress ps 0 = s.trustedAttestor)
    (hnoov : ps.getD 21 0 + 300 < 2 ^ 256)
    (hfresh : bt ≤ ps.getD 21 0 + 300)
    (hused : extractBytes32 ps 54 ∈ s.usedProofHashes) :
    updatePrice verify bt s proof ps = .error .ProofAlreadyUsed := by
  rw [updatePrice]
  simp only [EXPECTED_PUBLIC_INPUTS, MAX_ATTESTATION_AGE]
  split_ifs with h1 h2 h3 h4 h5 h6
  all_goals first | rfl | omega | simp_all | (exfalso; omega)

/-- A call whose packed hash is already recorded never succeeds, whatever
its other inputs: the replay guard (or an earlier guard) rejects it. -/
theorem updatePrice_no_reuse (verify : List Nat → List Nat → Bool)
    (bt : Nat) (s : OracleState) (proof ps : List Nat)
    (hused : extractBytes32 ps 54 ∈ s.usedProofHashes) :
    ∃ e, updatePrice verify bt s proof ps = .error e := by
  cases hres : updatePrice verify bt s proof ps with
  | error e => exact ⟨e, rfl⟩
  | ok s2 =>
    exact absurd hused (updatePrice_ok_fields verify bt s proof ps s2 hres).2.2.2.2.1

/-- C2.  `updatePrice` rejects every public-input array whose length is not
exactly 86 with `InvalidPublicInputsLength`; the result depends on nothing
but the length, so the rejection precedes proof verification and every
per-field extraction. -/
theorem updatePrice_rejects_wrong_length (verify : List Nat → List Nat → Bool)
    (bt : Nat) (s : OracleState) (proof ps : List Nat) (h : ps.length ≠ 86) :
    updatePrice verify bt s proof ps = .error .InvalidPublicInputsLength := by
  rw [updatePrice]
  simp only [EXPECTED_PUBLIC_INPUTS]
  rw [if_pos h]

/-- C2, witness at arrays one slot shorter and one slot longer. -/
theorem updatePrice_rejects_wrong_length_witness :
    updatePrice (fun _ _ => true) 0 ⟨0, [], ⟨0, 0, 0, 0, 0⟩⟩ [] (List.replicate 85 0)
      = .error .InvalidPublicInputsLength
    ∧ updatePrice (fun _ _ => false) 5 ⟨7, [], ⟨0, 0, 0, 0, 0⟩⟩ [] (List.replicate 87 3)
      = .error .InvalidPublicInputsLength :=
  ⟨updatePrice_rejects_wrong_length _ _ _ _ _ (by decide),
   updatePrice_rejects_wrong_length _ _ _ _ _ (by decide)⟩

/-- C3.  On an 86-slot byte-valued array the unpacker reads the attestor
address from slots 0..19, the price from slot 20, the attestation
timestamp from slot 21, the response data hash from slots 22..53 and the
packed commitment hash from slots 54..85, reassembling each multi-slot
field big-endian (most significant byte first, one byte per slot); a
successful `updatePrice` stores exactly those decoded values and compares
the decoded address against the trusted attestor. -/
theorem unpack_offsets (ps : List Nat) (hlen : ps.length = 86)
    (hbyte : ∀ b ∈ ps, b < 256) :
    extractAddress ps 0 = beFold (ps.take 20)
    ∧ extractBytes32 ps 22 = beFold ((ps.drop 22).take 32)
    ∧ extractBytes32 ps 54 = beFold ((ps.drop 54).take 32)
    ∧ ∀ verify bt s proof s',
        updatePrice verify bt s proof ps = .ok s' →
          s'.latestPrice.price = ps.getD 20 0
          ∧ s'.latestPrice.attestationTimestamp = ps.getD 21 0
          ∧ s'.latestPrice.responseDataHash = beFold ((ps.drop 22).take 32)
          ∧ s'.latestPrice.packedHash = beFold ((ps.drop 54).take 32)
          ∧ beFold (ps.take 20) = s.trustedAttestor := by
  have e0 : extractAddress ps 0 = beFold (ps.take 20) := by
    simpa using extractAddress_eq_beFold ps 0 hbyte
  have e22 := extractBytes32_eq_beFold ps 22 hbyte
  have e54 := extractBytes32_eq_beFold ps 54 hbyte
  refine ⟨e0, e22, e54, ?_⟩
  intro verify bt s proof s' h
  obtain ⟨-, -, ha, -, -, hs⟩ := updatePrice_ok_fields verify bt s proof ps s' h
  subst hs
  exact ⟨rfl, rfl, e22, e54, by rw [← e0]; exact ha⟩

/-- C3, witness on a concrete byte-valued 86-slot array. -/
theorem unpack_offsets_witness :
    extractAddress (List.range 86) 0 = beFold ((List.range 86).take 20)
    ∧ extractBytes32 (List.range 86) 54 = beFold (((List.range 86).drop 54).take 32) :=
  ⟨(unpack_offsets (List.range 86) (by decide) (by decide)).1,
   (unpack_offsets (List.range 86) (by decide) (by decide)).2.2.1⟩

/-- C9, counterexample.  A later call whose public inputs decode to an
already-consumed packed hash need not revert with `ProofAlreadyUsed`: the
staleness guard runs first, so the same inputs submitted after the
5-minute window revert with `AttestationTooOld` instead. -/
theorem updatePrice_replay_other_error :
    updatePrice (fun _ _ => true) 0 ⟨0, [], ⟨0, 0, 0, 0, 0⟩⟩ [] (List.replicate 86 0)
      = .ok ⟨0, [0], ⟨0, 0, 0, 0, 0⟩⟩
    ∧ updatePrice (fun _ _ => true) 301 ⟨0, [0], ⟨0, 0, 0, 0, 0⟩⟩ [] (List.replicate 86 0)
      = .error .AttestationTooOld
    ∧ OracleError.AttestationTooOld ≠ OracleError.ProofAlreadyUsed := by
  refine ⟨rfl, rfl, by decide⟩

/-- C9, amended.  Once `updatePrice` succeeds, the packed hash is recorded,
and every later call whose inputs decode to that hash fails — reverting
with `ProofAlreadyUsed` whenever the length, proof, attestor and
staleness guards pass and the checked staleness addition
`slot21 + MAX_ATTESTATION_AGE` stays inside the uint256 range, and with
the corresponding earlier revert otherwise (an earlier custom error, or
the Panic 0x11 overflow revert when slot 21 decodes to at least
`2 ^ 256 - 300`); a revert leaves `latestPrice` and `usedProofHashes`
unchanged, so a packed hash is never consumed twice. -/
theorem updatePrice_replay_protection (verify : List Nat → List Nat → Bool)
    (bt bt' : Nat) (s s' : OracleState) (proof proof' ps ps' : List Nat)
    (h1 : updatePrice verify bt s proof ps = .ok s')
    (h2 : extractBytes32 ps' 54 = extractBytes32 ps 54) :
    (∃ e, updatePrice verify bt' s' proof' ps' = .error e)
    ∧ (ps'.length = 86 → verify proof' ps' = true →
        extractAddress ps' 0 = s'.trustedAttestor →
        ps'.getD 21 0 + 300 < 2 ^ 256 →
        bt' ≤ ps'.getD 21 0 + 300 →
        updatePrice verify bt' s' proof' ps' = .error .ProofAlreadyUsed) := by
  obtain ⟨-, -, -, -, -, hs⟩ := updatePrice_ok_fields verify bt s proof ps s' h1
  have hused : extractBytes32 ps' 54 ∈ s'.usedProofHashes := by
    rw [hs, h2]
    exact List.mem_cons_self _ _
  refine ⟨updatePrice_no_reuse verify bt' s' proof' ps' hused, ?_⟩
  intro hlen hv ha hnoov hfresh
  exact updatePrice_replay_error verify bt' s' proof' ps' hlen hv ha hnoov hfresh hused

/-- C9, witness: replaying the same inputs inside the staleness window
reverts with `ProofAlreadyUsed`. -/
theorem updatePrice_replay_protection_witness :
    updatePrice (fun _ _ => true) 0 ⟨0, [0], ⟨0, 0, 0, 0, 0⟩⟩ [] (List.replicate 86 0)
      = .error .ProofAlreadyUsed :=
  (updatePrice_replay_protection (fun _ _ => true) 0 0
    ⟨0, [], ⟨0, 0, 0, 0, 0⟩⟩ ⟨0, [0], ⟨0, 0, 0, 0, 0⟩⟩ [] []
    (List.replicate 86 0) (List.replicate 86 0) rfl rfl).2
    (by decide) rfl rfl (by decide) (by decide)

/-- C4, counterexample.  With an empty `attestors` array the function does
not return an invalid result: the access `att.attestors[0].attestorAddr`
raises a TypeError even though the signature recovers fine. -/
theorem verifyAttestationSignature_throws_on_empty :
    attNoAttestors.attestors = []
    ∧ verifyAttestationSignature id (fun _ _ => some ("0xattestor")) attNoAttestors
        = .error .typeError := by
  refine ⟨rfl, rfl⟩

/-- C4, amended.  `verifyAttestationSignature` returns a result record
(with `valid` false on mismatch) only when a first signature exists,
recovery succeeds and a first attestor exists; it throws — rather than
returning invalid — when the signatures list is empty, when the
signature is malformed (recovery fails), or when the attestors list is
empty. -/
theorem verifyAttestationSignature_behavior (H : List Nat → List Nat)
    (recover : List Nat → String → Option String) (att : Attestation) :
    (att.signatures = [] →
      verifyAttestationSignature H recover att = .error .etherError)
    ∧ (∀ sig, att.signatures.head? = some sig →
        recover (encodeAttestation H att) sig = none →
        verifyAttestationSignature H recover att = .error .etherError)
    ∧ (∀ sig r, att.signatures.head? = some sig →
        recover (encodeAttestation H att) sig = some r →
        att.attestors = [] →
        verifyAttestationSignature H recover att = .error .typeError)
    ∧ (∀ sig r a0 rest, att.signatures.head? = some sig →
        recover (encodeAttestation H att) sig = some r →
        att.attestors = a0 :: rest →
        verifyAttestationSignature H recover att =
          .ok { valid := lowerAscii r == lowerAscii a0.attestorAddr
                recoveredAddress := r
                expectedAddress := a0.attestorAddr }) := by
  refine ⟨?_, ?_, ?_, ?_⟩
  · intro hs
    simp [verifyAttestationSignature, hs]
  · intro sig hs hr
    simp [verifyAttestationSignature, hs, hr]
  · intro sig r hs hr ha
    simp [verifyAttestationSignature, hs, hr, ha]
  · intro sig r a0 rest hs hr ha
    simp [verifyAttestationSignature, hs, hr, ha]

/-- C4, witness: a successful comparison through the amended theorem. -/
theorem verifyAttestationSignature_behavior_witness :
    verifyAttestationSignature id (fun _ _ => some ("0xAbC"))
      { recipient := 1
        request := { url := "u", header := "h", method := "GET", body := "" }
        reponseResolve := [⟨"k", "t", "p"⟩]
        data := "d"
        attConditions := "c"
        timestamp := 2
        additionParams := "a"
        attestors := [{ attestorAddr := "0xABC", url := "x" }]
        signatures := ["s1", "s2"] }
      = .ok { valid := true, recoveredAddress := "0xAbC", expectedAddress := "0xABC" } := by
  have h := (verifyAttestationSignature_behavior id (fun _ _ => some ("0xAbC"))
      { recipient := 1
        request := { url := "u", header := "h", method := "GET", body := "" }
        reponseResolve := [⟨"k", "t", "p"⟩]
        data := "d"
        attConditions := "c"
        timestamp := 2
        additionParams := "a"
        attestors := [{ attestorAddr := "0xABC", url := "x" }]
        signatures := ["s1", "s2"] }).2.2.2
      ("s1") ("0xAbC") { attestorAddr := "0xABC", url := "x" } [] rfl rfl rfl
  rw [h]
  rfl

/-- C10.  The verdict of `verifyAttestationSignature` depends only on the
seven encoded attestation fields, the first signature and the first
attestor address: two attestations agreeing on those — whatever their
extra signatures, extra attestors or attestor URLs — verify
identically. -/
theorem verify_depends_only_on_head (H : List Nat → List Nat)
    (recover : List Nat → String → Option String) (a1 a2 : Attestation)
    (hrec : a1.recipient = a2.recipient) (hreq : a1.request = a2.request)
    (hres : a1.reponseResolve = a2.reponseResolve) (hdata : a1.data = a2.data)
    (hcond : a1.attConditions = a2.attConditions)
    (hts : a1.timestamp = a2.timestamp)
    (hadd : a1.additionParams = a2.additionParams)
    (hsig : a1.signatures.head? = a2.signatures.head?)
    (hatt : a1.attestors.head?.map AttestorEntry.attestorAddr
          = a2.attestors.head?.map AttestorEntry.attestorAddr) :
    verifyAttestationSignature H recover a1 =
      verifyAttestationSignature H recover a2 := by
  have henc : encodeAttestation H a1 = encodeAttestation H a2 := by
    rw [encodeAttestation, encodeAttestation, encodeRequest, encodeRequest,
      encodeResponse, encodeResponse, hrec, hreq, hres, hdata, hcond, hts, hadd]
  simp only [verifyAttestationSignature, henc, ← hsig]
  cases hh : a1.signatures.head? with
  | none => rfl
  | some sig =>
    cases hr : recover (encodeAttestation H a2) sig with
    | none => simp [hr]
    | some r =>
      simp only [hr]
      cases h1 : a1.attestors.head? with
      | none =>
        cases h2 : a2.attestors.head? with
        | none => simp
        | some b0 =>
          rw [h1, h2] at hatt
          simp at hatt
      | some a0 =>
        cases h2 : a2.attestors.head? with
        | none =>
          rw [h1, h2] at hatt
          simp at hatt
        | some b0 =>
          rw [h1, h2] at hatt
          simp at hatt
          simp [hatt]

/-- C10, witness: identical verdict despite an extra signature, an extra
attestor and a different attestor URL. -/
theorem verify_depends_only_on_head_witness :
    verifyAttestationSignature id (fun _ _ => some ("0xr"))
      { recipient := 0
        request := ⟨"u", "h", "m", "b"⟩
        reponseResolve := []
        data := "d"
        attConditions := "c"
        timestamp := 3
        additionParams := "p"
        attestors := [{ attestorAddr := "0xA", url := "url1" }]
        signatures := ["s1"] }
    = verifyAttestationSignature id (fun _ _ => some ("0xr"))
      { recipient := 0
        request := ⟨"u", "h", "m", "b"⟩
        reponseResolve := []
        data := "d"
        attConditions := "c"
        timestamp := 3
        additionParams := "p"
        attestors := [{ attestorAddr := "0xA", url := "url2" },
                      { attestorAddr := "0xB", url := "u3" }]
        signatures := ["s1", "s2"] } :=
  verify_depends_only_on_head id (fun _ _ => some ("0xr")) _ _
    rfl rfl rfl rfl rfl rfl rfl rfl rfl
